import Mathlib

/-!
Shallow embedding of the room/session coordinator server
(`src/unnamed/part_004`, final revision: the socket.io handlers
`get-lobbies`, `create-room`, `join-room`, `toggle-ready`, `disconnect`,
`get-room-state`, `send-message`).

JavaScript `Map` objects are modelled as association lists preserving
insertion order (`Map.set` replaces in place for an existing key, appends
for a new one; iteration follows insertion order).  Socket identifiers,
usernames and room codes are `String`s.  `uuidv4()` is nondeterministic,
so the raw uuid string is passed to `createRoom` as an explicit argument
and the code applies `substring(0,6).toUpperCase()` to it, as the source
does.  Emitted socket events are collected in a `List Emit`.  The `users`
map's stored `ready` field is never read by any handler (only `username`
appears, in log lines), so ready-toggles are not propagated into it.
-/

namespace Counter

/-- JS whitespace test used by `String.prototype.trim` (ASCII fragment;
the strings this server handles are ASCII). -/
def jsIsWhitespace (c : Char) : Bool :=
  c == ' ' || c == '\t' || c == '\n' || c == '\r'

/-- `String.prototype.trim`: strip whitespace from both ends. -/
def jsTrim (s : String) : String :=
  ⟨((s.data.dropWhile jsIsWhitespace).reverse.dropWhile jsIsWhitespace).reverse⟩

/-- `toUpperCase` on one character (ASCII case mapping). -/
def jsToUpperChar (c : Char) : Char :=
  if 'a' ≤ c && c ≤ 'z' then Char.ofNat (c.toNat - 32) else c

/-- `String.prototype.toUpperCase` (ASCII case mapping). -/
def jsToUpper (s : String) : String := ⟨s.data.map jsToUpperChar⟩

/-- `String.prototype.substring(0, n)`. -/
def jsTake (s : String) (n : Nat) : String := ⟨s.data.take n⟩

structure User where
  id : String
  username : String
  ready : Bool
deriving DecidableEq, Repr

structure Room where
  id : String
  users : List User
deriving DecidableEq, Repr

/-- JS-`Map`-like get: first entry with the key. -/
def alistGet {α : Type} : List (String × α) → String → Option α
  | [], _ => none
  | (k', v) :: rest, k => if k' = k then some v else alistGet rest k

/-- JS-`Map`-like set: replace in place if the key exists, else append. -/
def alistSet {α : Type} : List (String × α) → String → α → List (String × α)
  | [], k, v => [(k, v)]
  | (k', v') :: rest, k, v =>
    if k' = k then (k, v) :: rest else (k', v') :: alistSet rest k v

/-- JS-`Map`-like delete: remove the entry with the key, if present. -/
def alistDelete {α : Type} : List (String × α) → String → List (String × α)
  | [], _ => []
  | (k', v') :: rest, k =>
    if k' = k then rest else (k', v') :: alistDelete rest k

/-- The server's whole mutable state: the `rooms` map and the `users` map. -/
structure ServerState where
  rooms : List (String × Room)
  users : List (String × User)
deriving DecidableEq, Repr

def initialState : ServerState := ⟨[], []⟩

/-- Payload of a `new-message` broadcast. -/
structure MessageData where
  username : String
  message : String
  timestamp : Nat
deriving DecidableEq, Repr

/-- Events the server emits over socket.io, in emission order. -/
inductive Emit where
  | roomUpdate (roomId : String) (room : Room)
  | lobbiesUpdated
  | startGame (roomId : String) (room : Room)
  | specificRoomUpdate (toSocket : String) (room : Room)
  | newMessage (roomId : String) (data : MessageData)
deriving DecidableEq, Repr

/-- Direct callback response for create/join/toggle requests. -/
structure CallbackResp where
  success : Bool
  roomId : Option String
  error : Option String
deriving DecidableEq, Repr

def invalidNameMsg : String := "Username must be at least 3 characters long."
def roomNotFoundMsg : String := "Room not found."
def roomFullMsg : String := "Room is full."
def duplicateNameMsg : String := "Username already taken in this room."
def userNotFoundMsg : String := "User not found."
def notInAnyRoomMsg : String := "User not found in any room."

def errResp (msg : String) : CallbackResp := ⟨false, none, some msg⟩
def okResp (roomId : String) : CallbackResp := ⟨true, some roomId, none⟩
def okRespPlain : CallbackResp := ⟨true, none, none⟩

/-- `emitRoomUpdate` helper: broadcast the room object if the id is live. -/
def emitRoomUpdate (rooms : List (String × Room)) (roomId : String) : List Emit :=
  match alistGet rooms roomId with
  | some room => [Emit.roomUpdate roomId room]
  | none => []

/-- Lobby entry `{id, playerCount}` returned by `get-lobbies`. -/
structure LobbyEntry where
  id : String
  playerCount : Nat
deriving DecidableEq, Repr

/-- The `get-lobbies` loop: push rooms with `0 < |users| < 2`, break once
five entries are collected. -/
def getLobbiesLoop : List (String × Room) → List LobbyEntry → List LobbyEntry
  | [], acc => acc
  | (roomId, room) :: rest, acc =>
    let acc' := if room.users.length > 0 ∧ room.users.length < 2
      then acc ++ [⟨roomId, room.users.length⟩] else acc
    if acc'.length ≥ 5 then acc' else getLobbiesLoop rest acc'

/-- The `get-lobbies` handler (read-only; always answers its callback). -/
def getLobbies (st : ServerState) : List LobbyEntry :=
  getLobbiesLoop st.rooms []

/-- `uuidv4().substring(0,6).toUpperCase()` applied to the raw uuid. -/
def genRoomId (uuid : String) : String := jsToUpper (jsTake uuid 6)

/-- The `create-room` handler.  `socketId` is `socket.id`; `uuid` is the
string `uuidv4()` produced for this call. -/
def createRoom (st : ServerState) (socketId username uuid : String) :
    ServerState × CallbackResp × List Emit :=
  if username = "" ∨ (jsTrim username).length < 3 then
    (st, errResp invalidNameMsg, [])
  else
    let roomId := genRoomId uuid
    let newUser : User := ⟨socketId, jsTrim username, false⟩
    let newRoom : Room := ⟨roomId, [newUser]⟩
    let rooms' := alistSet st.rooms roomId newRoom
    let users' := alistSet st.users socketId newUser
    (⟨rooms', users'⟩, okResp roomId,
      emitRoomUpdate rooms' roomId ++ [Emit.lobbiesUpdated])

/-- The `join-room` handler. -/
def joinRoom (st : ServerState) (socketId roomId username : String) :
    ServerState × CallbackResp × List Emit :=
  if username = "" ∨ (jsTrim username).length < 3 then
    (st, errResp invalidNameMsg, [])
  else if roomId = "" then
    (st, errResp roomNotFoundMsg, [])
  else
    match alistGet st.rooms roomId with
    | none => (st, errResp roomNotFoundMsg, [])
    | some room =>
      if room.users.length ≥ 2 then
        (st, errResp roomFullMsg, [])
      else if room.users.any (fun u => u.username = jsTrim username) then
        (st, errResp duplicateNameMsg, [])
      else
        let newUser : User := ⟨socketId, jsTrim username, false⟩
        let room' : Room := { room with users := room.users ++ [newUser] }
        let rooms' := alistSet st.rooms roomId room'
        let users' := alistSet st.users socketId newUser
        (⟨rooms', users'⟩, okResp roomId,
          emitRoomUpdate rooms' roomId ++ [Emit.lobbiesUpdated])

/-- Toggle the `ready` flag of the first user with the given id
(`room.users.find` returns the first match, which the handler mutates). -/
def toggleUser : List User → String → List User
  | [], _ => []
  | u :: rest, socketId =>
    if u.id = socketId then { u with ready := !u.ready } :: rest
    else u :: toggleUser rest socketId

/-- First room (in `rooms` iteration order) containing a user with this id. -/
def findUserRoom : List (String × Room) → String → Option (String × Room)
  | [], _ => none
  | (roomId, room) :: rest, socketId =>
    if room.users.any (fun u => u.id = socketId) then some (roomId, room)
    else findUserRoom rest socketId

/-- Post-toggle start condition: `users.length === 2 && users.every(ready)`. -/
def canStart (room : Room) : Bool :=
  room.users.length = 2 && room.users.all (fun u => u.ready)

/-- The `toggle-ready` handler, including the start-game check. -/
def toggleReady (st : ServerState) (socketId : String) :
    ServerState × CallbackResp × List Emit :=
  match alistGet st.users socketId with
  | none => (st, errResp userNotFoundMsg, [])
  | some _ =>
    match findUserRoom st.rooms socketId with
    | none => (st, errResp notInAnyRoomMsg, [])
    | some (roomId, room) =>
      let room' : Room := { room with users := toggleUser room.users socketId }
      let rooms' := alistSet st.rooms roomId room'
      let st' : ServerState := { st with rooms := rooms' }
      let base := emitRoomUpdate rooms' roomId
      if canStart room' then
        (st', okRespPlain, base ++ [Emit.startGame roomId room', Emit.lobbiesUpdated])
      else
        (st', okRespPlain, base)

/-- `splice(findIndex(...), 1)`: remove the first user with the given id. -/
def removeUser : List User → String → List User
  | [], _ => []
  | u :: rest, socketId =>
    if u.id = socketId then rest else u :: removeUser rest socketId

/-- The `disconnect` handler (no callback; transport is gone). -/
def disconnect (st : ServerState) (socketId : String) :
    ServerState × List Emit :=
  match alistGet st.users socketId with
  | none => (st, [])
  | some _ =>
    match findUserRoom st.rooms socketId with
    | none => (⟨st.rooms, alistDelete st.users socketId⟩, [])
    | some (roomId, room) =>
      let wasRoomFull := room.users.length = 2
      let remaining := removeUser room.users socketId
      if remaining.length = 0 then
        (⟨alistDelete st.rooms roomId, alistDelete st.users socketId⟩,
          [Emit.lobbiesUpdated])
      else
        let rooms' := alistSet st.rooms roomId { room with users := remaining }
        (⟨rooms', alistDelete st.users socketId⟩,
          emitRoomUpdate rooms' roomId ++
            (if wasRoomFull then [Emit.lobbiesUpdated] else []))

/-- The `get-room-state` handler: unicast snapshot, or silence. -/
def getRoomState (st : ServerState) (socketId roomId : String) : List Emit :=
  match alistGet st.rooms roomId with
  | some room =>
    if room.users.any (fun u => u.id = socketId) then
      [Emit.specificRoomUpdate socketId room]
    else []
  | none => []

/-- The `send-message` handler.  `now` stands for `Date.now()`.  The JS
falsiness tests `!roomId || !message || !username` become equality with
the empty string. -/
def sendMessage (st : ServerState) (socketId roomId message username : String)
    (now : Nat) : List Emit :=
  if roomId = "" ∨ message = "" ∨ username = "" then []
  else
    match alistGet st.rooms roomId with
    | none => []
    | some room =>
      if room.users.any (fun u => u.id = socketId) then
        [Emit.newMessage roomId ⟨username, jsTrim message, now⟩]
      else []

/-- One inbound state-mutating operation (read-only handlers leave the
state untouched and are omitted from traces). -/
inductive Op where
  | create (socketId username uuid : String)
  | join (socketId roomId username : String)
  | toggle (socketId : String)
  | disc (socketId : String)
deriving DecidableEq, Repr

/-- Apply one operation, returning the new state and its emitted events. -/
def applyOp (st : ServerState) : Op → ServerState × List Emit
  | Op.create socketId username uuid =>
    let r := createRoom st socketId username uuid
    (r.1, r.2.2)
  | Op.join socketId roomId username =>
    let r := joinRoom st socketId roomId username
    (r.1, r.2.2)
  | Op.toggle socketId =>
    let r := toggleReady st socketId
    (r.1, r.2.2)
  | Op.disc socketId =>
    let r := disconnect st socketId
    (r.1, r.2)

/-- Run a trace of operations from a state, collecting all emits in order. -/
def runOps (st : ServerState) : List Op → ServerState × List Emit
  | [] => (st, [])
  | op :: rest =>
    let r := applyOp st op
    let r' := runOps r.1 rest
    (r'.1, r.2 ++ r'.2)

/-- States reachable from the empty server state by handler executions. -/
inductive Reachable : ServerState → Prop where
  | init : Reachable initialState
  | step (st : ServerState) (op : Op) :
      Reachable st → Reachable (applyOp st op).1

/-- Number of `start-game` events for a given room in an emit trace. -/
def countStart (emits : List Emit) (roomId : String) : Nat :=
  emits.countP (fun e =>
    match e with
    | Emit.startGame rid _ => rid = roomId
    | _ => false)


/-! ### Association-list lemmas -/

theorem alistGet_set_self {α : Type} (l : List (String × α)) (k : String) (v : α) :
    alistGet (alistSet l k v) k = some v := by
  induction l with
  | nil => simp [alistSet, alistGet]
  | cons p rest ih =>
    obtain ⟨k', v'⟩ := p
    by_cases h : k' = k <;> simp [alistSet, alistGet, h, ih]

theorem mem_alistSet {α : Type} (l : List (String × α)) (k : String) (v : α) :
    ∀ p ∈ alistSet l k v, p = (k, v) ∨ p ∈ l := by
  induction l with
  | nil => simp [alistSet]
  | cons q rest ih =>
    obtain ⟨k', v'⟩ := q
    intro p hp
    by_cases h : k' = k
    · simp only [alistSet, if_pos h, List.mem_cons] at hp
      simp only [List.mem_cons]
      tauto
    · simp only [alistSet, if_neg h, List.mem_cons] at hp
      simp only [List.mem_cons]
      rcases hp with hp | hp
      · tauto
      · rcases ih p hp with h' | h' <;> tauto

theorem mem_alistDelete {α : Type} (l : List (String × α)) (k : String) :
    ∀ p ∈ alistDelete l k, p ∈ l := by
  induction l with
  | nil => simp [alistDelete]
  | cons q rest ih =>
    obtain ⟨k', v'⟩ := q
    intro p hp
    by_cases h : k' = k
    · simp only [alistDelete, if_pos h] at hp
      exact List.mem_cons_of_mem _ hp
    · simp only [alistDelete, if_neg h, List.mem_cons] at hp
      simp only [List.mem_cons]
      rcases hp with hp | hp
      · tauto
      · exact Or.inr (ih p hp)

theorem alistGet_mem {α : Type} (l : List (String × α)) (k : String) (v : α)
    (h : alistGet l k = some v) : (k, v) ∈ l := by
  induction l with
  | nil => simp [alistGet] at h
  | cons q rest ih =>
    obtain ⟨k', v'⟩ := q
    by_cases hk : k' = k
    · simp only [alistGet, if_pos hk] at h
      subst hk
      cases h
      exact List.mem_cons_self _ _
    · simp only [alistGet, if_neg hk] at h
      exact List.mem_cons_of_mem _ (ih h)

theorem alistGet_eq_none_of_not_mem {α : Type} (l : List (String × α)) (k : String)
    (h : k ∉ l.map Prod.fst) : alistGet l k = none := by
  induction l with
  | nil => rfl
  | cons q rest ih =>
    obtain ⟨k', v'⟩ := q
    simp only [List.map_cons, List.mem_cons] at h
    push_neg at h
    have hne : k' ≠ k := fun hk => h.1 hk.symm
    simp only [alistGet, if_neg hne, ih h.2]

theorem alistGet_alistDelete_self {α : Type} (l : List (String × α)) (k : String)
    (h : (l.map Prod.fst).Nodup) : alistGet (alistDelete l k) k = none := by
  induction l with
  | nil => rfl
  | cons q rest ih =>
    obtain ⟨k', v'⟩ := q
    simp only [List.map_cons, List.nodup_cons] at h
    by_cases hk : k' = k
    · simp only [alistDelete, if_pos hk]
      exact alistGet_eq_none_of_not_mem rest k (hk ▸ h.1)
    · simp only [alistDelete, if_neg hk, alistGet, if_neg hk]
      exact ih h.2

theorem findUserRoom_mem (l : List (String × Room)) (sid rid : String) (room : Room)
    (h : findUserRoom l sid = some (rid, room)) : (rid, room) ∈ l := by
  induction l with
  | nil => simp [findUserRoom] at h
  | cons q rest ih =>
    obtain ⟨rid', room'⟩ := q
    by_cases hm : room'.users.any (fun u => u.id = sid)
    · simp only [findUserRoom, if_pos hm] at h
      cases h
      exact List.mem_cons_self _ _
    · simp only [findUserRoom, if_neg hm] at h
      exact List.mem_cons_of_mem _ (ih h)

theorem length_toggleUser (l : List User) (sid : String) :
    (toggleUser l sid).length = l.length := by
  induction l with
  | nil => rfl
  | cons u rest ih =>
    by_cases h : u.id = sid <;> simp [toggleUser, h, ih]

theorem length_removeUser_le (l : List User) (sid : String) :
    (removeUser l sid).length ≤ l.length := by
  induction l with
  | nil => simp [removeUser]
  | cons u rest ih =>
    by_cases h : u.id = sid <;> simp [removeUser, h]
    omega

/-! ### Concrete fixtures used by witnesses and counterexamples -/

/-- A uuid string of the shape `uuidv4()` returns. -/
def uuA : String := "aaaaaa11-1111-1111-1111-111111111111"

/-- A second uuid, yielding a distinct room code. -/
def uuB : String := "bbbbbb22-2222-2222-2222-222222222222"

/-- State after socket `s1` creates a room (code `AAAAAA`) as `alice`. -/
def stA : ServerState := (applyOp initialState (Op.create "s1" "alice" uuA)).1

/-- `stA` is reachable. -/
theorem reachable_stA : Reachable stA := Reachable.step _ _ Reachable.init

/-- State after `s2` additionally joins room `AAAAAA` as `bobby`. -/
def stAB : ServerState := (applyOp stA (Op.join "s2" "AAAAAA" "bobby")).1

/-- `stAB` is reachable. -/
theorem reachable_stAB : Reachable stAB := Reachable.step _ _ reachable_stA

/-- State after `alice` (socket `s1`) has toggled ready in the full room. -/
def stAB1 : ServerState := (applyOp stAB (Op.toggle "s1")).1

/-- State after `s1`, already in room `AAAAAA`, creates a second room. -/
def stAA2 : ServerState := (applyOp stA (Op.create "s1" "alice" uuB)).1

/-- `stAA2` is reachable. -/
theorem reachable_stAA2 : Reachable stAA2 := Reachable.step _ _ reachable_stA

/-- State after `s1` joins its own room `AAAAAA` again as `bobby`. -/
def stADup : ServerState := (applyOp stA (Op.join "s1" "AAAAAA" "bobby")).1

/-- `stADup` is reachable. -/
theorem reachable_stADup : Reachable stADup := Reachable.step _ _ reachable_stA


/-! ### C8: disconnect idempotence -/

theorem disconnect_not_registered (st : ServerState) (sid : String)
    (h : alistGet st.users sid = none) : disconnect st sid = (st, []) := by
  unfold disconnect
  rw [h]

theorem disconnect_users_deleted (st : ServerState) (sid : String) (u : User)
    (h : alistGet st.users sid = some u) :
    (disconnect st sid).1.users = alistDelete st.users sid := by
  unfold disconnect
  rw [h]
  cases hfr : findUserRoom st.rooms sid with
  | none => rfl
  | some p =>
    obtain ⟨rid, room⟩ := p
    by_cases hlen : (removeUser room.users sid).length = 0 <;> simp [hlen]

/-- C8: running disconnect-cleanup a second time for the same connection
changes nothing: given that the `users` map has no duplicate keys (a JS
`Map` cannot), the second run returns the state of the first run unchanged
and emits no event, so two runs have the same final state and the same
total observable effects as one. -/
theorem disconnect_idempotent (st : ServerState) (sid : String)
    (h : (st.users.map Prod.fst).Nodup) :
    disconnect (disconnect st sid).1 sid = ((disconnect st sid).1, []) := by
  cases hget : alistGet st.users sid with
  | none => rw [disconnect_not_registered st sid hget]
            exact disconnect_not_registered st sid hget
  | some u =>
    apply disconnect_not_registered
    rw [disconnect_users_deleted st sid u hget]
    exact alistGet_alistDelete_self st.users sid h

/-- C8 witness: concretely, disconnecting `s2` twice from the two-member
room state equals disconnecting once, with no second-run emits. -/
theorem disconnect_idempotent_witness :
    disconnect (disconnect stAB "s2").1 "s2" = ((disconnect stAB "s2").1, []) :=
  disconnect_idempotent stAB "s2" (by decide)

/-! ### C9: get-lobbies -/

theorem getLobbiesLoop_length_le (l : List (String × Room)) (acc : List LobbyEntry)
    (h : acc.length ≤ 4) : (getLobbiesLoop l acc).length ≤ 5 := by
  induction l generalizing acc with
  | nil => simpa [getLobbiesLoop] using Nat.le_trans h (by omega)
  | cons q rest ih =>
    obtain ⟨rid, room⟩ := q
    unfold getLobbiesLoop
    by_cases hc : room.users.length > 0 ∧ room.users.length < 2
    · simp only [if_pos hc]
      by_cases hb : (acc ++ [(⟨rid, room.users.length⟩ : LobbyEntry)]).length ≥ 5
      · simp only [if_pos hb]
        simp at hb ⊢
        omega
      · simp only [if_neg hb]
        apply ih
        simp at hb ⊢
        omega
    · simp only [if_neg hc]
      by_cases hb : acc.length ≥ 5
      · omega
      · simp only [if_neg hb]
        exact ih acc h

theorem getLobbiesLoop_mem (l : List (String × Room)) (acc : List LobbyEntry) :
    ∀ e ∈ getLobbiesLoop l acc, e ∈ acc ∨
      ∃ p ∈ l, e = ⟨p.1, p.2.users.length⟩ ∧
        0 < p.2.users.length ∧ p.2.users.length < 2 := by
  induction l generalizing acc with
  | nil => intro e he; exact Or.inl (by simpa [getLobbiesLoop] using he)
  | cons q rest ih =>
    obtain ⟨rid, room⟩ := q
    intro e he
    unfold getLobbiesLoop at he
    by_cases hc : room.users.length > 0 ∧ room.users.length < 2
    · simp only [if_pos hc] at he
      by_cases hb : (acc ++ [(⟨rid, room.users.length⟩ : LobbyEntry)]).length ≥ 5
      · simp only [if_pos hb, List.mem_append, List.mem_singleton] at he
        rcases he with he | he
        · exact Or.inl he
        · exact Or.inr ⟨(rid, room), List.mem_cons_self _ _, he, hc.1, hc.2⟩
      · simp only [if_neg hb] at he
        rcases ih _ e he with hacc | ⟨p, hp, he'⟩
        · simp only [List.mem_append, List.mem_singleton] at hacc
          rcases hacc with hacc | hacc
          · exact Or.inl hacc
          · exact Or.inr ⟨(rid, room), List.mem_cons_self _ _, hacc, hc.1, hc.2⟩
        · exact Or.inr ⟨p, List.mem_cons_of_mem _ hp, he'⟩
    · simp only [if_neg hc] at he
      by_cases hb : acc.length ≥ 5
      · simp only [if_pos hb] at he
        exact Or.inl he
      · simp only [if_neg hb] at he
        rcases ih _ e he with hacc | ⟨p, hp, he'⟩
        · exact Or.inl hacc
        · exact Or.inr ⟨p, List.mem_cons_of_mem _ hp, he'⟩

/-- C9: `get-lobbies` always succeeds (it is a total function of the
state), returns at most 5 entries, and each entry is the
`{id, playerCount}` projection of a live room whose member count is
strictly between 0 and the capacity 2. -/
theorem getLobbies_spec (st : ServerState) :
    (getLobbies st).length ≤ 5 ∧
    ∀ e ∈ getLobbies st, ∃ p ∈ st.rooms,
      e.id = p.1 ∧ e.playerCount = p.2.users.length ∧
      0 < p.2.users.length ∧ p.2.users.length < 2 := by
  constructor
  · exact getLobbiesLoop_length_le st.rooms [] (by simp)
  · intro e he
    rcases getLobbiesLoop_mem st.rooms [] e he with hacc | ⟨p, hp, he', h1, h2⟩
    · simp at hacc
    · exact ⟨p, hp, by rw [he'], by rw [he'], h1, h2⟩


/-! ### C4: room size invariant -/

/-- Every live room has between 1 and 2 members. -/
def roomSizeOk (st : ServerState) : Prop :=
  ∀ p ∈ st.rooms, 1 ≤ p.2.users.length ∧ p.2.users.length ≤ 2

theorem roomSizeOk_create (st : ServerState) (sid username uuid : String)
    (h : roomSizeOk st) : roomSizeOk (createRoom st sid username uuid).1 := by
  unfold createRoom
  by_cases hname : username = "" ∨ (jsTrim username).length < 3
  · simpa [if_pos hname] using h
  · simp only [if_neg hname]
    intro p hp
    rcases mem_alistSet _ _ _ p hp with hnew | hold
    · subst hnew; simp
    · exact h p hold

theorem roomSizeOk_join (st : ServerState) (sid roomId username : String)
    (h : roomSizeOk st) : roomSizeOk (joinRoom st sid roomId username).1 := by
  unfold joinRoom
  by_cases hname : username = "" ∨ (jsTrim username).length < 3
  · simpa [if_pos hname] using h
  · simp only [if_neg hname]
    by_cases hrid : roomId = ""
    · simpa [if_pos hrid] using h
    · simp only [if_neg hrid]
      cases hget : alistGet st.rooms roomId with
      | none => exact h
      | some room =>
        by_cases hfull : room.users.length ≥ 2
        · simpa [if_pos hfull] using h
        · simp only [if_neg hfull]
          by_cases hdup : room.users.any (fun u => u.username = jsTrim username)
          · simpa [hdup] using h
          · simp only [hdup, Bool.false_eq_true, if_neg, ite_false]
            intro p hp
            rcases mem_alistSet _ _ _ p hp with hnew | hold
            · subst hnew
              have := h _ (alistGet_mem _ _ _ hget)
              simp at this ⊢
              omega
            · exact h p hold

theorem roomSizeOk_toggle (st : ServerState) (sid : String)
    (h : roomSizeOk st) : roomSizeOk (toggleReady st sid).1 := by
  unfold toggleReady
  cases hu : alistGet st.users sid with
  | none => exact h
  | some u =>
    cases hfr : findUserRoom st.rooms sid with
    | none => exact h
    | some p =>
      obtain ⟨rid, room⟩ := p
      have hmem := findUserRoom_mem st.rooms sid rid room hfr
      have hroom := h _ hmem
      by_cases hcs : canStart { room with users := toggleUser room.users sid } <;>
        · simp only [hcs]
          intro q hq
          rcases mem_alistSet _ _ _ q hq with hnew | hold
          · subst hnew
            simpa [length_toggleUser] using hroom
          · exact h q hold

theorem roomSizeOk_disconnect (st : ServerState) (sid : String)
    (h : roomSizeOk st) : roomSizeOk (disconnect st sid).1 := by
  unfold disconnect
  cases hu : alistGet st.users sid with
  | none => exact h
  | some u =>
    cases hfr : findUserRoom st.rooms sid with
    | none => exact h
    | some p =>
      obtain ⟨rid, room⟩ := p
      have hmem := findUserRoom_mem st.rooms sid rid room hfr
      have hroom := h _ hmem
      by_cases hlen : (removeUser room.users sid).length = 0
      · simp only [if_pos hlen]
        intro q hq
        exact h q (mem_alistDelete _ _ q hq)
      · simp only [if_neg hlen]
        intro q hq
        rcases mem_alistSet _ _ _ q hq with hnew | hold
        · subst hnew
          have hle := length_removeUser_le room.users sid
          simp at hroom ⊢
          omega
        · exact h q hold

/-- C4: at every reachable state, every live room has at least 1 and at
most 2 members; in particular a room is never kept with zero members
(the disconnect handler deletes a room the moment its member list
empties) and never exceeds the capacity of 2. -/
theorem room_size_invariant (st : ServerState) (h : Reachable st) : roomSizeOk st := by
  induction h with
  | init => intro p hp; cases hp
  | step st op _ ih =>
    cases op with
    | create sid username uuid => exact roomSizeOk_create st sid username uuid ih
    | join sid roomId username => exact roomSizeOk_join st sid roomId username ih
    | toggle sid => exact roomSizeOk_toggle st sid ih
    | disc sid => exact roomSizeOk_disconnect st sid ih

/-- C4 witness: the invariant instantiated at the concrete reachable
two-member room state. -/
theorem room_size_invariant_witness :
    1 ≤ (⟨"AAAAAA", [⟨"s1", "alice", false⟩, ⟨"s2", "bobby", false⟩]⟩ : Room).users.length ∧
    (⟨"AAAAAA", [⟨"s1", "alice", false⟩, ⟨"s2", "bobby", false⟩]⟩ : Room).users.length ≤ 2 :=
  room_size_invariant stAB reachable_stAB
    ("AAAAAA", ⟨"AAAAAA", [⟨"s1", "alice", false⟩, ⟨"s2", "bobby", false⟩]⟩) (by decide)


/-! ### C5: join-room case analysis -/

theorem jsTrim_empty : jsTrim "" = "" := rfl

theorem name_guard_iff (username : String) :
    (username = "" ∨ (jsTrim username).length < 3) ↔ (jsTrim username).length < 3 := by
  constructor
  · rintro (h | h)
    · subst h; simp [jsTrim_empty]
    · exact h
  · exact Or.inr

/-- C5: `join-room` fails with `InvalidName` when the trimmed name is
shorter than 3; with `RoomNotFound` when the name is valid but no live
room has the given id; with `RoomFull` when the room already has 2 (or
more) members; with `DuplicateName` when the trimmed name exactly
(case-sensitively) matches a name already in the room; and in exactly the
remaining cases it succeeds, appending a member with `ready = false` and
leaving the existing members unchanged.  The hypothesis that the rooms
map has no entry under the empty-string key holds of every state the
server actually produces (room codes are 6 characters). -/
theorem joinRoom_cases (st : ServerState) (sid roomId username : String)
    (hε : alistGet st.rooms "" = none) :
    ((jsTrim username).length < 3 →
       joinRoom st sid roomId username = (st, errResp invalidNameMsg, [])) ∧
    (3 ≤ (jsTrim username).length → alistGet st.rooms roomId = none →
       joinRoom st sid roomId username = (st, errResp roomNotFoundMsg, [])) ∧
    (∀ room : Room, 3 ≤ (jsTrim username).length →
       alistGet st.rooms roomId = some room →
      ((2 ≤ room.users.length →
         joinRoom st sid roomId username = (st, errResp roomFullMsg, [])) ∧
       (room.users.length < 2 →
         (((∃ u ∈ room.users, u.username = jsTrim username) →
            joinRoom st sid roomId username = (st, errResp duplicateNameMsg, [])) ∧
          ((∀ u ∈ room.users, u.username ≠ jsTrim username) →
            joinRoom st sid roomId username =
              (⟨alistSet st.rooms roomId
                   ⟨room.id, room.users ++ [⟨sid, jsTrim username, false⟩]⟩,
                 alistSet st.users sid ⟨sid, jsTrim username, false⟩⟩,
               okResp roomId,
               [Emit.roomUpdate roomId
                  ⟨room.id, room.users ++ [⟨sid, jsTrim username, false⟩]⟩,
                Emit.lobbiesUpdated])))))) := by
  refine ⟨?_, ?_, ?_⟩
  · intro hshort
    unfold joinRoom
    rw [if_pos ((name_guard_iff username).2 hshort)]
  · intro hname hmiss
    unfold joinRoom
    have hguard : ¬(username = "" ∨ (jsTrim username).length < 3) := by
      rw [name_guard_iff]
      omega
    rw [if_neg hguard]
    by_cases hrid : roomId = ""
    · rw [if_pos hrid]
    · rw [if_neg hrid, hmiss]
  · intro room hname hget
    have hrid : roomId ≠ "" := by
      intro hc
      rw [hc, hε] at hget
      cases hget
    have hguard : ¬(username = "" ∨ (jsTrim username).length < 3) := by
      rw [name_guard_iff]
      omega
    refine ⟨?_, ?_⟩
    · intro hfull
      unfold joinRoom
      rw [if_neg hguard, if_neg hrid]
      simp only [hget]
      rw [if_pos (show room.users.length ≥ 2 from hfull)]
    · intro hroomy
      have hnotfull : ¬(room.users.length ≥ 2) := by omega
      refine ⟨?_, ?_⟩
      · intro hdup
        have hb : room.users.any (fun u => u.username = jsTrim username) = true := by
          simp only [List.any_eq_true, decide_eq_true_eq]
          exact hdup
        unfold joinRoom
        rw [if_neg hguard, if_neg hrid]
        simp only [hget]
        rw [if_neg hnotfull, if_pos hb]
      · intro hnodup
        have hb : ¬(room.users.any (fun u => u.username = jsTrim username) = true) := by
          simp only [List.any_eq_true, decide_eq_true_eq]
          rintro ⟨u, hu, hcontra⟩
          exact hnodup u hu hcontra
        unfold joinRoom
        rw [if_neg hguard, if_neg hrid]
        simp only [hget]
        rw [if_neg hnotfull, if_neg hb]
        simp only [emitRoomUpdate, alistGet_set_self, List.append_eq]
        rfl


/-- C5 witness: the case analysis applied at the concrete one-room state,
`InvalidName` branch for the 2-character name and `RoomFull` branch
after the room fills. -/
theorem joinRoom_cases_witness :
    joinRoom stA "s3" "AAAAAA" "ab" = (stA, errResp invalidNameMsg, []) :=
  (joinRoom_cases stA "s3" "AAAAAA" "ab" (by decide)).1 (by decide)

/-! ### C3: create-room (no collision check) -/

theorem length_jsTake (s : String) (n : Nat) : (jsTake s n).length = min n s.length :=
  List.length_take n s.data

theorem length_jsToUpper (s : String) : (jsToUpper s).length = s.length :=
  List.length_map s.data jsToUpperChar

/-- C3 counterexample: with room `AAAAAA` live, a `create-room` call whose
`uuidv4()` output starts with the same six characters succeeds and
returns the code `AAAAAA` of the already-live room — there is no
collision check — and the old room is silently overwritten by the new
one-member room. -/
theorem createRoom_collision_cex :
    Reachable stA ∧
    ((∃ p ∈ stA.rooms, p.1 = "AAAAAA") ∧
     (createRoom stA "s2" "bobby" uuA).2.1 = okResp "AAAAAA" ∧
     alistGet (createRoom stA "s2" "bobby" uuA).1.rooms "AAAAAA" =
       some ⟨"AAAAAA", [⟨"s2", "bobby", false⟩]⟩) :=
  ⟨reachable_stA, by decide⟩

/-- C3 amended: a successful `create-room` returns
`uuidv4().substring(0,6).toUpperCase()` — a 6-character upper-case-normalized
code whenever the uuid has at least 6 characters — and the new room holds
exactly one member with `ready = false`; but the code is not
collision-checked: the store is updated by plain `Map.set`, which
overwrites any live room already carrying that code. -/
theorem createRoom_spec (st : ServerState) (sid username uuid : String)
    (hname : 3 ≤ (jsTrim username).length) (hlen : 6 ≤ uuid.length) :
    (createRoom st sid username uuid).2.1 = okResp (genRoomId uuid) ∧
    (genRoomId uuid).length = 6 ∧
    (createRoom st sid username uuid).1.rooms =
      alistSet st.rooms (genRoomId uuid)
        ⟨genRoomId uuid, [⟨sid, jsTrim username, false⟩]⟩ ∧
    alistGet (createRoom st sid username uuid).1.rooms (genRoomId uuid) =
      some ⟨genRoomId uuid, [⟨sid, jsTrim username, false⟩]⟩ := by
  have hguard : ¬(username = "" ∨ (jsTrim username).length < 3) := by
    rw [name_guard_iff]
    omega
  refine ⟨?_, ?_, ?_, ?_⟩
  · unfold createRoom
    rw [if_neg hguard]
  · unfold genRoomId
    rw [length_jsToUpper, length_jsTake]
    omega
  · unfold createRoom
    rw [if_neg hguard]
  · unfold createRoom
    rw [if_neg hguard]
    exact alistGet_set_self _ _ _


/-- C3 witness: `createRoom_spec` instantiated at the empty server state
with a concrete 36-character uuid. -/
theorem createRoom_spec_witness :
    (createRoom initialState "s1" "alice" uuA).2.1 = okResp (genRoomId uuA) ∧
    (genRoomId uuA).length = 6 ∧
    (createRoom initialState "s1" "alice" uuA).1.rooms =
      alistSet initialState.rooms (genRoomId uuA)
        ⟨genRoomId uuA, [⟨"s1", jsTrim "alice", false⟩]⟩ ∧
    alistGet (createRoom initialState "s1" "alice" uuA).1.rooms (genRoomId uuA) =
      some ⟨genRoomId uuA, [⟨"s1", jsTrim "alice", false⟩]⟩ :=
  createRoom_spec initialState "s1" "alice" uuA (by decide) (by decide)

/-! ### C7: room-code lookup is verbatim, not normalized -/

/-- C7 counterexample: room `AAAAAA` is live, the lower-case variant
`aaaaaa` trims and upper-cases to exactly that code, yet `join-room` with
`aaaaaa` answers `Room not found.` and leaves the state unchanged — the
coordinator does not normalize the code before lookup. -/
theorem joinRoom_case_variant_cex :
    Reachable stA ∧
    ((∃ p ∈ stA.rooms, p.1 = "AAAAAA") ∧
     jsToUpper (jsTrim "aaaaaa") = "AAAAAA" ∧
     joinRoom stA "s2" "aaaaaa" "bobby" = (stA, errResp roomNotFoundMsg, [])) :=
  ⟨reachable_stA, by decide⟩

/-- C7 amended: the coordinator performs no trimming and no case
normalization on the room-code input: `join-room` looks the raw string up
in the rooms map, so any request whose code is not literally a stored
(upper-case) code — including every other case or whitespace variant of a
live code — fails with `RoomNotFound`.  (The trim/uppercase step the spec
describes lives in the excluded client, not in the coordinator.) -/
theorem joinRoom_raw_lookup (st : ServerState) (sid roomId username : String)
    (hname : 3 ≤ (jsTrim username).length)
    (hmiss : alistGet st.rooms roomId = none) :
    joinRoom st sid roomId username = (st, errResp roomNotFoundMsg, []) := by
  have hguard : ¬(username = "" ∨ (jsTrim username).length < 3) := by
    rw [name_guard_iff]
    omega
  unfold joinRoom
  rw [if_neg hguard]
  by_cases hrid : roomId = ""
  · rw [if_pos hrid]
  · rw [if_neg hrid, hmiss]

/-- C7 witness: the raw-lookup theorem applied to the whitespace-and-case
variant `" aaaaaa "` of the live code `AAAAAA`. -/
theorem joinRoom_raw_lookup_witness :
    joinRoom stA "s2" " aaaaaa " "bobby" = (stA, errResp roomNotFoundMsg, []) :=
  joinRoom_raw_lookup stA "s2" " aaaaaa " "bobby" (by decide) (by decide)


/-! ### C1: start-game notification -/

theorem countStart_emitRoomUpdate (rooms : List (String × Room)) (rid target : String) :
    countStart (emitRoomUpdate rooms rid) target = 0 := by
  unfold emitRoomUpdate
  cases alistGet rooms rid <;> simp [countStart]

/-- C1 counterexample: a room fires `start-game` a second time.  After the
room starts (both members ready), one member toggles off and back on; the
handler re-evaluates the start condition — there is no `Started` phase —
and emits a second `start-game`, so over this trace the notification for
room `AAAAAA` is emitted twice. -/
theorem start_game_fires_twice_cex :
    countStart (runOps initialState
      [Op.create "s1" "alice" uuA, Op.join "s2" "AAAAAA" "bobby",
       Op.toggle "s1", Op.toggle "s2", Op.toggle "s1", Op.toggle "s1"]).2 "AAAAAA" = 2 := by
  decide

/-- C1 amended: each successful `toggle-ready` emits `start-game` for the
member's room exactly once when the toggle leaves the room with exactly 2
members all ready, and never otherwise.  The check is re-run on every
toggle (the code has no `Started` phase and never marks a room as
started), so over a sequence of operations the notification can fire more
than once for the same room. -/
theorem toggleReady_start_count (st : ServerState) (sid : String) (u : User)
    (hu : alistGet st.users sid = some u) (roomId : String) (room : Room)
    (hr : findUserRoom st.rooms sid = some (roomId, room)) :
    countStart (toggleReady st sid).2.2 roomId =
      (if canStart ⟨room.id, toggleUser room.users sid⟩ then 1 else 0) := by
  unfold toggleReady
  simp only [hu, hr]
  by_cases hcs : canStart ⟨room.id, toggleUser room.users sid⟩
  · rw [if_pos hcs, if_pos hcs]
    have hbase := countStart_emitRoomUpdate
      (alistSet st.rooms roomId ⟨room.id, toggleUser room.users sid⟩) roomId roomId
    simp only [countStart, List.countP_append] at hbase ⊢
    rw [hbase]
    simp [List.countP_cons]
  · rw [if_neg hcs, if_neg hcs]
    exact countStart_emitRoomUpdate _ _ _

/-- C1 witness: with `alice` already ready, `bobby`'s toggle leaves the
room all-ready and emits exactly one `start-game`. -/
theorem toggleReady_start_count_witness :
    countStart (toggleReady stAB1 "s2").2.2 "AAAAAA" = 1 := by
  have h := toggleReady_start_count stAB1 "s2" ⟨"s2", "bobby", false⟩ (by decide)
    "AAAAAA" ⟨"AAAAAA", [⟨"s1", "alice", true⟩, ⟨"s2", "bobby", false⟩]⟩ (by decide)
  rw [h]
  decide

/-! ### C2: connection-to-room exclusivity does not hold -/

/-- C2 counterexample: after `s1` creates room `AAAAAA` and then creates
room `BBBBBB` without leaving, the single connection `s1` appears in the
member lists of two distinct live rooms — reachable purely through
create-room operations. -/
theorem connection_two_rooms_cex :
    Reachable stAA2 ∧
    (∃ p ∈ stAA2.rooms, ∃ q ∈ stAA2.rooms, p.1 ≠ q.1 ∧
       (∃ u ∈ p.2.users, u.id = "s1") ∧ (∃ v ∈ q.2.users, v.id = "s1")) :=
  ⟨reachable_stAA2, by decide⟩

/-- C2 amended: no exclusivity invariant is enforced — `create-room` and
`join-room` never consult the caller's existing membership, so a
reachable state can hold one connection in the member lists of two
distinct live rooms, and a reachable state can even hold the same
connection twice inside a single room's member list (the creator re-joins
its own room under a different display name). -/
theorem membership_unconstrained :
    (∃ st : ServerState, Reachable st ∧ ∃ sid : String,
       ∃ p ∈ st.rooms, ∃ q ∈ st.rooms, p.1 ≠ q.1 ∧
         (∃ u ∈ p.2.users, u.id = sid) ∧ (∃ v ∈ q.2.users, v.id = sid)) ∧
    (∃ st : ServerState, Reachable st ∧ ∃ sid : String, ∃ p ∈ st.rooms,
       2 ≤ (p.2.users.filter (fun u => u.id = sid)).length) :=
  ⟨⟨stAA2, reachable_stAA2, "s1", by decide⟩,
   ⟨stADup, reachable_stADup, "s1", by decide⟩⟩


/-! ### C6: send-message acceptance condition -/

/-- C6 counterexample: the handler checks JS falsiness, not trimmed
emptiness.  A whitespace-only message `"   "` (whose trimmed text is
empty) from a room member is NOT ignored — it is broadcast with empty
text — and conversely a valid message from a member is silently dropped
whenever the client-supplied `username` field is the empty string. -/
theorem sendMessage_trim_cex :
    Reachable stA ∧
    (jsTrim "   " = "" ∧
     sendMessage stA "s1" "AAAAAA" "   " "bobby" 0 =
       [Emit.newMessage "AAAAAA" ⟨"bobby", "", 0⟩] ∧
     sendMessage stA "s1" "AAAAAA" "hi" "" 0 = []) :=
  ⟨reachable_stA, by decide⟩

/-- C6 amended: `send-message` is silently ignored (no fan-out, no error
reply) exactly when the payload `roomId`, `message` or `username` is the
empty string, or the `roomId` is not a live room, or the sender's socket
is not in that room's member list; every accepted message produces exactly
one room-scoped broadcast whose single payload — the trimmed message text,
the payload username and the timestamp — is what each member of the room,
the sender included, receives. -/
theorem sendMessage_spec (st : ServerState)
    (sid roomId message username : String) (now : Nat) :
    (sendMessage st sid roomId message username now ≠ [] ↔
      (roomId ≠ "" ∧ message ≠ "" ∧ username ≠ "" ∧
       ∃ room, alistGet st.rooms roomId = some room ∧
         ∃ u ∈ room.users, u.id = sid)) ∧
    ∀ e ∈ sendMessage st sid roomId message username now,
      e = Emit.newMessage roomId ⟨username, jsTrim message, now⟩ := by
  unfold sendMessage
  by_cases h1 : roomId = "" ∨ message = "" ∨ username = ""
  · rw [if_pos h1]
    refine ⟨?_, ?_⟩
    · constructor
      · intro hc
        exact absurd rfl hc
      · rintro ⟨hr, hm, hu, -⟩
        rcases h1 with h | h | h
        · exact absurd h hr
        · exact absurd h hm
        · exact absurd h hu
    · intro e he
      simp at he
  · rw [if_neg h1]
    push_neg at h1
    obtain ⟨hr, hm, hu⟩ := h1
    cases hget : alistGet st.rooms roomId with
    | none =>
      dsimp only
      refine ⟨?_, ?_⟩
      · constructor
        · intro hc
          exact absurd rfl hc
        · rintro ⟨-, -, -, room, hroom, -⟩
          cases hroom
      · intro e he
        simp at he
    | some room =>
      dsimp only
      by_cases hmem : room.users.any (fun u => u.id = sid) = true
      · rw [if_pos hmem]
        refine ⟨?_, ?_⟩
        · constructor
          · intro _
            refine ⟨hr, hm, hu, room, rfl, ?_⟩
            simpa [List.any_eq_true] using hmem
          · intro _
            simp
        · intro e he
          simpa using he
      · rw [if_neg hmem]
        refine ⟨?_, ?_⟩
        · constructor
          · intro hc
            exact absurd rfl hc
          · rintro ⟨-, -, -, room', hroom', u, hu', hid⟩
            cases hroom'
            exact (hmem (by simpa [List.any_eq_true] using ⟨u, hu', hid⟩)).elim
        · intro e he
          simp at he

/-! ### C10: chat username comes verbatim from the payload -/

/-- C10: an accepted chat message is stamped with the client-supplied
payload `username` — the display name stored for the sending connection
in the room's member list is never consulted — so the broadcast carries
whatever name the sender put in the payload. -/
theorem sendMessage_username_verbatim (st : ServerState)
    (sid roomId message username : String) (now : Nat) (room : Room)
    (hr : roomId ≠ "") (hm : message ≠ "") (hu : username ≠ "")
    (hget : alistGet st.rooms roomId = some room)
    (hmem : room.users.any (fun u => u.id = sid) = true) :
    sendMessage st sid roomId message username now =
      [Emit.newMessage roomId ⟨username, jsTrim message, now⟩] := by
  unfold sendMessage
  rw [if_neg (by tauto)]
  simp only [hget]
  rw [if_pos hmem]

/-- C10 witness: the member whose socket is `s1` is stored in the room as
`alice`, yet the fanned-out message is attributed to the payload name
`mallory`. -/
theorem sendMessage_username_verbatim_witness :
    (∃ u ∈ (⟨"AAAAAA", [⟨"s1", "alice", false⟩]⟩ : Room).users,
       u.id = "s1" ∧ u.username = "alice") ∧
    sendMessage stA "s1" "AAAAAA" "hi" "mallory" 7 =
      [Emit.newMessage "AAAAAA" ⟨"mallory", jsTrim "hi", 7⟩] :=
  ⟨by decide, sendMessage_username_verbatim stA "s1" "AAAAAA" "hi" "mallory" 7
     ⟨"AAAAAA", [⟨"s1", "alice", false⟩]⟩ (by decide) (by decide) (by decide)
     (by decide) (by decide)⟩

end Counter
